import Mathlib

set_option maxRecDepth 8000

/-!
Verification development for the az_dubbing video-dubbing pipeline.

Shallow embedding of the segment-timing and voice-matching pipeline:
  * src/audio/ttsengine.py   — speaker normalization, segment matching,
    synthesis parameter construction, retry control flow, time-stretch policy
  * src/video/video_processor.py — validate_audio_sync
  * src/audio/transcriber.py — timecode formatting

Python floats are modelled as rationals extended with the non-finite
values nan / inf / -inf; Python dicts holding speaker attributes are
modelled as association lists with first-match lookup (an assignment is
a cons, which has the same lookup semantics as an in-place update);
fallible operations (float() or int() conversion of a non-numeric
value, a dictionary pipeline that can raise) return Option.
-/

/-- Python float values: finite rationals plus the non-finite values
nan, inf and -inf that corrupt telemetry can carry. -/
inductive PyFloat where
  | fin (q : ℚ)
  | nan
  | inf
  | ninf
  deriving DecidableEq, Repr

/-- IEEE-style strict comparison on Python floats: every comparison with
nan is false, -inf is below every finite value and inf, inf is above. -/
def pyLt : PyFloat → PyFloat → Bool
  | .fin a, .fin b => decide (a < b)
  | .fin _, .inf => true
  | .ninf, .fin _ => true
  | .ninf, .inf => true
  | _, _ => false

/-- IEEE-style non-strict comparison (used for chained range tests such
as Python 50 <= pitch <= 300): false whenever nan is involved. -/
def pyLe : PyFloat → PyFloat → Bool
  | .fin a, .fin b => decide (a ≤ b)
  | .fin _, .inf => true
  | .ninf, .fin _ => true
  | .ninf, .inf => true
  | .ninf, .ninf => true
  | .inf, .inf => true
  | _, _ => false

/-- CPython min(a, b): the second argument is returned only when it
compares strictly below the first, so min(300, nan) = 300. -/
def pyMin (a b : PyFloat) : PyFloat := if pyLt b a then b else a

/-- CPython max(a, b): the second argument is returned only when it
compares strictly above the first, so max(50, nan) = 50. -/
def pyMax (a b : PyFloat) : PyFloat := if pyLt a b then b else a

/-- Python int() applied to a finite float: truncation toward zero. -/
def pyTruncInt (q : ℚ) : ℤ := if 0 ≤ q then ⌊q⌋ else ⌈q⌉

/-- Values stored in the speaker-metadata dictionaries: numbers
(possibly non-finite) or strings (such as the gender tag). -/
inductive PyVal where
  | num (x : PyFloat)
  | str (s : String)
  deriving DecidableEq, Repr

/-- A Python dict as an association list; lookup takes the first match,
so modelling an assignment as a cons agrees with dict semantics. -/
abbrev SpeakerDict := List (String × PyVal)

/-- Dictionary lookup, d[k] as an Option. -/
def dlookup (k : String) (d : SpeakerDict) : Option PyVal := List.lookup k d

/-- Python d.get(k, default). -/
def dget (d : SpeakerDict) (k : String) (dflt : PyVal) : PyVal :=
  (dlookup k d).getD dflt

/-- Python float(v): numeric values pass through; converting the
string-valued fields of these dicts raises, modelled as none.  (The
numeric speaker fields come from JSON metadata, where they are numbers.) -/
def toFloat : PyVal → Option PyFloat
  | .num x => some x
  | .str _ => none

/-- Python int(v) on a dict value: finite numbers truncate toward zero;
int() of nan or an infinity raises, as does int() of these strings. -/
def toInt : PyVal → Option ℤ
  | .num (.fin q) => some (pyTruncInt q)
  | _ => none

/-- The whitespace characters recognised by the guard
"not text or text.isspace()" (ASCII subset of str.isspace). -/
def pySpaceChar (c : Char) : Bool :=
  c == ' ' || c == '\t' || c == '\n' || c == '\r'

/-- Python "not text or text.isspace()": true exactly when every
character of the text is whitespace (vacuously true for ""). -/
def textIsBlank (text : String) : Bool := text.toList.all pySpaceChar

/-- The two voice genders of the configuration table. -/
inductive Gender where
  | male
  | female
  deriving DecidableEq, Repr

/-- The three language codes present in the default voice table. -/
inductive Lang where
  | az
  | en
  | tr
  deriving DecidableEq, Repr

/-- The default voice table, config key voices (ttsengine.py:29-40). -/
def voiceName : Gender → Lang → String
  | .male, .az => "az-AZ-BabekNeural"
  | .male, .en => "en-US-GuyNeural"
  | .male, .tr => "tr-TR-AhmetNeural"
  | .female, .az => "az-AZ-BanuNeural"
  | .female, .en => "en-US-JennyNeural"
  | .female, .tr => "tr-TR-EmelNeural"

/-- Base pitch per gender, config key pitch_ranges (ttsengine.py:41-44). -/
def basePitch : Gender → ℚ
  | .male => 120
  | .female => 210

/-- speaker_info.get('gender', 'male').lower(), coerced to male when the
result is neither male nor female (ttsengine.py:188-190).  A non-string
gender value would raise on .lower(); these dicts carry string genders. -/
def genderOf (d : SpeakerDict) : Gender :=
  match dget d "gender" (.str "male") with
  | .str s => if s.toLower = "female" then .female else .male
  | _ => .male

/-- _normalize_speaker_params (ttsengine.py:98-119).  The dict copy plus
the three assignments are modelled by consing the three new bindings in
assignment order onto the (unchanged) input list, which has the same
lookup semantics.  float() of a non-numeric field raises, hence Option. -/
def normalize_speaker_params (d : SpeakerDict) : Option SpeakerDict :=
  (toFloat (dget d "pitch" (.num (.fin 0)))).bind fun p0 =>
    let p1 := if pyLt (.fin 300) p0 then
        (if dlookup "gender" d = some (.str "female") then PyFloat.fin 210
         else PyFloat.fin 120)
      else p0
    let pitchVal := pyMax (.fin 50) (pyMin (.fin 300) p1)
    (toFloat (dget d "energy" (.num (.fin 1)))).bind fun e0 =>
      let e1 := if pyLt e0 (.fin (1/100)) || pyLt (.fin 10) e0 then
          PyFloat.fin 1
        else e0
      let energyVal := pyMax (.fin (1/2)) (pyMin (.fin 2) e1)
      (toFloat (dget d "speech_rate" (.num (.fin 1)))).bind fun r0 =>
        let r1 := if pyLt (.fin 100) r0 then PyFloat.fin 1 else r0
        let rateVal := pyMax (.fin (4/5)) (pyMin (.fin (3/2)) r1)
        some (("speech_rate", PyVal.num rateVal) ::
              ("energy", PyVal.num energyVal) ::
              ("pitch", PyVal.num pitchVal) :: d)

/-- A field of the dictionary produced by normalization. -/
def normalizedField (d : SpeakerDict) (k : String) : Option PyVal :=
  (normalize_speaker_params d).bind (dlookup k)

/-- Synthesis-backend parameters: the keyword arguments handed to the
backend, with the pitch/rate/volume deltas as the integers rendered
into the "+NHz" / "+N%" strings. -/
structure TTSParams where
  text : String
  voice : PyVal
  pitch : ℤ
  rate : ℤ
  volume : ℤ
  deriving DecidableEq, Repr

/-- generate_speech parameter construction (ttsengine.py:187-223): voice
from the gender table, each delta applied only when the corresponding
field exists and its value lies in the sane range, otherwise the
neutral 0 delta.  A non-numeric field raises inside the try, hence
Option (the caller catches it and retries). -/
def generate_speech_params (text : String) (d : SpeakerDict) (lang : Lang) :
    Option TTSParams := do
  let g := genderOf d
  let pitchDelta : ℤ ←
    match dlookup "pitch" d with
    | none => some 0
    | some v => do
        let p ← toFloat v
        match p with
        | .fin q =>
            if 50 ≤ q ∧ q ≤ 300 then
              some (pyTruncInt ((q - basePitch g) / basePitch g * 50))
            else some 0
        | _ => some 0
  let rateDelta : ℤ ←
    match dlookup "speech_rate" d with
    | none => some 0
    | some v => do
        let r ← toFloat v
        match r with
        | .fin q =>
            if 1/2 ≤ q ∧ q ≤ 2 then some (pyTruncInt ((q - 1) * 100))
            else some 0
        | _ => some 0
  let volumeDelta : ℤ ←
    match dlookup "energy" d with
    | none => some 0
    | some v => do
        let e ← toFloat v
        match e with
        | .fin q =>
            if 1/10 ≤ q ∧ q ≤ 2 then some (pyTruncInt ((q - 1) * 100))
            else some 0
        | _ => some 0
  some { text := text, voice := .str (voiceName g lang),
         pitch := pitchDelta, rate := rateDelta, volume := volumeDelta }

/-- What one generate_speech invocation does before touching the
backend: return a silent clip, or call the backend with parameters. -/
inductive GSOutcome where
  | silentClip (ms : ℕ)
  | backendCall (p : TTSParams)
  deriving DecidableEq, Repr

/-- generate_speech up to the first backend interaction
(ttsengine.py:177-227): blank text short-circuits to a 1000 ms silent
clip with no backend call; otherwise the backend is invoked with the
constructed parameters. -/
def generate_speech_outcome (text : String) (d : SpeakerDict) (lang : Lang) :
    Option GSOutcome :=
  if textIsBlank text then some (.silentClip 1000)
  else (generate_speech_params text d lang).map .backendCall

/-- A backend invocation: either the full parameter set, or the minimal
retry form edge_tts.Communicate(text=..., voice=...) with no
pitch/rate/volume overrides. -/
inductive BackendCall where
  | full (p : TTSParams)
  | minimal (text : String) (voice : String)
  deriving DecidableEq, Repr

/-- generate_speech control flow (ttsengine.py:177-248) with the backend
abstracted by two oracles: ok1 is whether the first invocation (save
plus the size check) succeeds, ok2 whether the retry succeeds.  Result:
the list of backend calls made, and true for a normal return / false
for an exception re-raised to the caller.  A failure while building the
parameters is also caught by the except and goes straight to the retry. -/
def generate_speech_run (text : String) (d : SpeakerDict) (lang : Lang)
    (ok1 ok2 : Bool) : List BackendCall × Bool :=
  if textIsBlank text then ([], true)
  else
    match generate_speech_params text d lang with
    | some p =>
        if ok1 then ([.full p], true)
        else ([.full p, .minimal text (voiceName .male lang)], ok2)
    | none => ([.minimal text (voiceName .male lang)], ok2)

/-- process_segment parameter construction (ttsengine.py:258-264): the
voice and deltas are read from the keys voice / pitch_change /
rate_change / volume_change with neutral defaults; the speaker profile
fields pitch / energy / speech_rate are never consulted here. -/
def process_segment_params (text : String) (d : SpeakerDict) :
    Option TTSParams := do
  let p ← toInt (dget d "pitch_change" (.num (.fin 0)))
  let r ← toInt (dget d "rate_change" (.num (.fin 0)))
  let v ← toInt (dget d "volume_change" (.num (.fin 0)))
  some { text := text, voice := dget d "voice" (.str (voiceName .male .az)),
         pitch := p, rate := r, volume := v }

/-- The time-stretch policy of process_segment (ttsengine.py:277-284):
some sf means the clip is resampled with that speed factor, none means
it is left unstretched.  Durations in seconds. -/
def stretchDecision (currentDuration targetDuration : ℚ) : Option ℚ :=
  if 0 < currentDuration ∧ 1/10 < |currentDuration - targetDuration| then
    let speedFactor := currentDuration / targetDuration
    if 1/2 ≤ speedFactor ∧ speedFactor ≤ 2 then some speedFactor else none
  else none

/-- One parsed subtitle cue (read_srt): start, end, text. -/
structure SubCue where
  start_time : ℚ
  end_time : ℚ
  text : String
  deriving DecidableEq, Repr

/-- One transcript-metadata segment as consumed by
_find_matching_segment: hasId records whether the segment_id key is
present (the loop only considers segments that have it); speaker is the
optional speaker sub-dictionary. -/
structure MetaSegment where
  hasId : Bool
  segId : ℚ
  start_time : ℚ
  end_time : ℚ
  speaker : Option SpeakerDict
  deriving DecidableEq, Repr

/-- total_diff of _find_matching_segment (ttsengine.py:129-131). -/
def totalDiff (cue : SubCue) (seg : MetaSegment) : ℚ :=
  |seg.start_time - cue.start_time| + |seg.end_time - cue.end_time|

/-- One iteration of the closest-segment loop (ttsengine.py:127-135):
the accumulator pairs the current closest segment with its difference
(none models closest_segment = None, min_diff = inf); only segments
carrying segment_id participate; the strict comparison keeps the
earlier segment on ties. -/
def stepClosest (cue : SubCue) (acc : Option (MetaSegment × ℚ))
    (seg : MetaSegment) : Option (MetaSegment × ℚ) :=
  if seg.hasId then
    let d := totalDiff cue seg
    match acc with
    | none => some (seg, d)
    | some (best, m) => if d < m then some (seg, d) else some (best, m)
  else acc

/-- The closest-segment loop of _find_matching_segment. -/
def findClosestSegment (cue : SubCue) (segs : List MetaSegment) :
    Option (MetaSegment × ℚ) :=
  segs.foldl (stepClosest cue) none

/-- Modelled from the spec wording of the matcher algorithm, for
comparison with the loop above: recursively keep the first minimum
(head preference on ties) together with its total difference. -/
def firstMinDiff (cue : SubCue) : List MetaSegment → Option (MetaSegment × ℚ)
  | [] => none
  | s :: rest =>
    match firstMinDiff cue rest with
    | none => some (s, totalDiff cue s)
    | some (t, m) =>
        if totalDiff cue s ≤ m then some (s, totalDiff cue s) else some (t, m)

/-- The synthetic neutral fallback profile (ttsengine.py:166-175). -/
def neutralSpeaker : SpeakerDict :=
  [("gender", .str "male"), ("gender_confidence", .num (.fin 1)),
   ("pitch", .num (.fin 120)), ("energy", .num (.fin 1)),
   ("speech_rate", .num (.fin 1))]

/-- The dictionary returned by _find_matching_segment: segment_id (a
matched segment without the key would yield none), the speaker profile,
and the matched window when one exists. -/
structure MatchResult where
  segment_id : Option ℚ
  speaker : SpeakerDict
  window : Option (ℚ × ℚ)
  deriving DecidableEq, Repr

/-- The fallback return value of _find_matching_segment. -/
def fallbackMatch : MatchResult := ⟨some 0, neutralSpeaker, none⟩

/-- The matched branch of _find_matching_segment (ttsengine.py:137-161):
confidence gate at the configured threshold, pitch heuristic re-deriving
gender at 165 Hz when confidence is low, then normalization.  Any raise
(non-numeric confidence or pitch, or a failing normalization) is caught
by the surrounding except and yields the fallback. -/
def matchedResult (threshold : ℚ) (seg : MetaSegment) : MatchResult :=
  match seg.speaker with
  | none => fallbackMatch
  | some sp =>
    let conf := dget sp "gender_confidence" (.num (.fin 0))
    let norm? : Option SpeakerDict :=
      match conf with
      | .num c =>
        if pyLt (.fin threshold) c then normalize_speaker_params sp
        else
          match dget sp "pitch" (.num (.fin 0)) with
          | .num p =>
            let g := if pyLt (.fin 165) p then "female" else "male"
            normalize_speaker_params
              [("gender", .str g), ("gender_confidence", .num (.fin (4/5))),
               ("pitch", .num p), ("energy", dget sp "energy" (.num (.fin 1))),
               ("speech_rate", dget sp "speech_rate" (.num (.fin 1)))]
          | _ => none
      | _ => none
    match norm? with
    | some nd =>
        ⟨if seg.hasId then some seg.segId else none, nd,
         some (seg.start_time, seg.end_time)⟩
    | none => fallbackMatch

/-- _find_matching_segment (ttsengine.py:121-175): closest segment by
total difference, speaker handling, neutral fallback otherwise. -/
def find_matching_segment (threshold : ℚ) (cue : SubCue)
    (segs : List MetaSegment) : MatchResult :=
  match findClosestSegment cue segs with
  | some (seg, _) =>
      if seg.speaker.isSome then matchedResult threshold seg else fallbackMatch
  | none => fallbackMatch

/-- One audio segment record as passed to validate_audio_sync; the
payload string stands for the remaining dict fields (path, text, ...),
which participate in the dict equality test of the loop. -/
structure SyncSegment where
  start_time : ℚ
  end_time : ℚ
  payload : String
  deriving DecidableEq, Repr

/-- validate_audio_sync (video_processor.py:195-221): reject when a
segment ends after the track, or when two segments with different
record values (Python dict inequality, modelled by structure
inequality) have overlapping windows. -/
def validate_audio_sync (videoDuration : ℚ) (segments : List SyncSegment) :
    Bool :=
  segments.all fun s =>
    decide (s.end_time ≤ videoDuration) &&
    (segments.all fun o =>
      if s ≠ o then
        !(decide (s.start_time < o.end_time) && decide (o.start_time < s.end_time))
      else true)

/-- Python float modulo: a % b = a - b * floor(a / b). -/
def pyMod (a b : ℚ) : ℚ := a - b * ⌊a / b⌋

/-- The four numeric fields of an SRT timecode HH:MM:SS,mmm.  The
zero-padded rendering is injective on these fields and int() of each
parsed field recovers exactly these numbers, so the codec is modelled
at the field level. -/
structure Timecode where
  hh : ℤ
  mm : ℤ
  ss : ℤ
  mmm : ℤ
  deriving DecidableEq, Repr

/-- _format_timecode (transcriber.py:536-543).  Each int() here is
applied to a value that is already a floor (hours, minutes) or
non-negative (the second remainder and the millisecond product lie in
[0, 60) and [0, 1000)), so truncation coincides with floor. -/
def format_timecode (seconds : ℚ) : Timecode :=
  let hours : ℤ := ⌊seconds / 3600⌋
  let minutes : ℤ := ⌊pyMod seconds 3600 / 60⌋
  let secRem : ℚ := pyMod seconds 60
  let milliseconds : ℤ := ⌊pyMod secRem 1 * 1000⌋
  ⟨hours, minutes, ⌊secRem⌋, milliseconds⟩

/-- _time_to_seconds (ttsengine.py:83-91) applied to the four parsed
integer fields. -/
def time_to_seconds (t : Timecode) : ℚ :=
  t.hh * 3600 + t.mm * 60 + t.ss + t.mmm / 1000

/-- Raw profile used in concrete evaluations: a confidently female
speaker at 250 Hz with mildly raised energy and rate. -/
def femaleProfileRaw : SpeakerDict :=
  [("gender", .str "female"), ("gender_confidence", .num (.fin (9/10))),
   ("pitch", .num (.fin 250)), ("energy", .num (.fin (13/10))),
   ("speech_rate", .num (.fin (6/5)))]

/-- The normalization of femaleProfileRaw (all fields already in range). -/
def femaleProfileNorm : SpeakerDict :=
  ("speech_rate", .num (.fin (6/5))) :: ("energy", .num (.fin (13/10))) ::
    ("pitch", .num (.fin 250)) :: femaleProfileRaw

/-- A raw profile whose pitch field is nan. -/
def nanPitchDict : SpeakerDict := [("pitch", .num .nan)]

/-- The normalization of nanPitchDict. -/
def nanPitchNorm : SpeakerDict :=
  ("speech_rate", .num (.fin 1)) :: ("energy", .num (.fin 1)) ::
    ("pitch", .num (.fin 300)) :: nanPitchDict

/-- A male profile whose pitch lies below the valid range. -/
def lowPitchDict : SpeakerDict :=
  [("gender", .str "male"), ("pitch", .num (.fin 10)),
   ("energy", .num (.fin 1)), ("speech_rate", .num (.fin 1))]

/-- The normalization of lowPitchDict. -/
def lowPitchNorm : SpeakerDict :=
  ("speech_rate", .num (.fin 1)) :: ("energy", .num (.fin 1)) ::
    ("pitch", .num (.fin 50)) :: lowPitchDict

/-- femaleProfileRaw extended with an extra carrier key. -/
def voiceFeatDict : SpeakerDict :=
  ("voice_features", .str "balanced") :: femaleProfileRaw

/-- The normalization of voiceFeatDict. -/
def voiceFeatNorm : SpeakerDict :=
  ("speech_rate", .num (.fin (6/5))) :: ("energy", .num (.fin (13/10))) ::
    ("pitch", .num (.fin 250)) :: voiceFeatDict

/-- A generic speaker dict over the three numeric fields. -/
def speakerDictOf (g : String) (p e r : PyFloat) : SpeakerDict :=
  [("gender", .str g), ("pitch", .num p), ("energy", .num e),
   ("speech_rate", .num r)]

/-- The spec scenario cue start 10.0, end 13.0, text Salam. -/
def demoCue : SubCue := ⟨10, 13, "Salam"⟩

/-- The spec scenario first candidate segment, window 0..5. -/
def demoSeg1 : MetaSegment := ⟨true, 1, 0, 5, none⟩

/-- The spec scenario second candidate segment, window 9.5..13.2. -/
def demoSeg2 : MetaSegment := ⟨true, 2, 19/2, 66/5, none⟩

/-- A duplicated audio segment record: window 0..5, same payload. -/
def dupSeg : SyncSegment := ⟨0, 5, "segment_0001.wav"⟩

/-- The bounds invariant the spec states for a normalized profile. -/
def NormBounds (nd : SpeakerDict) : Prop :=
  (∃ p : ℚ, dlookup "pitch" nd = some (.num (.fin p)) ∧ 50 ≤ p ∧ p ≤ 300) ∧
  (∃ e : ℚ, dlookup "energy" nd = some (.num (.fin e)) ∧ 1/2 ≤ e ∧ e ≤ 2) ∧
  (∃ r : ℚ, dlookup "speech_rate" nd = some (.num (.fin r)) ∧
    4/5 ≤ r ∧ r ≤ 3/2)

/-- pyLt with nan on the left is always false. -/
theorem pyLt_nan_left (x : PyFloat) : pyLt .nan x = false := by
  cases x <;> rfl

/-- pyLt with nan on the right is always false. -/
theorem pyLt_nan_right (x : PyFloat) : pyLt x .nan = false := by
  cases x <;> rfl

/-- pyLt with inf on the left is always false. -/
theorem pyLt_inf_left (x : PyFloat) : pyLt .inf x = false := by
  cases x <;> rfl

/-- pyLt on finite values is the rational comparison. -/
theorem pyLt_fin_fin (a b : ℚ) : pyLt (.fin a) (.fin b) = decide (a < b) := rfl

/-- pyLt from -inf to a finite value is true. -/
theorem pyLt_ninf_fin (b : ℚ) : pyLt .ninf (.fin b) = true := rfl

/-- pyLt from a finite value to -inf is false. -/
theorem pyLt_fin_ninf (a : ℚ) : pyLt (.fin a) .ninf = false := rfl

/-- pyMin of two finite values is the rational minimum. -/
theorem pyMin_fin_fin (a b : ℚ) : pyMin (.fin a) (.fin b) = .fin (min a b) := by
  simp only [pyMin, pyLt_fin_fin, decide_eq_true_eq]
  by_cases h : b < a
  · rw [if_pos h, min_eq_right (le_of_lt h)]
  · rw [if_neg h, min_eq_left (not_lt.mp h)]

/-- pyMax of two finite values is the rational maximum. -/
theorem pyMax_fin_fin (a b : ℚ) : pyMax (.fin a) (.fin b) = .fin (max a b) := by
  simp only [pyMax, pyLt_fin_fin, decide_eq_true_eq]
  by_cases h : a < b
  · rw [if_pos h, max_eq_right (le_of_lt h)]
  · rw [if_neg h, max_eq_left (not_lt.mp h)]

/-- CPython min keeps its first argument against nan. -/
theorem pyMin_fin_nan (a : ℚ) : pyMin (.fin a) .nan = .fin a := by
  simp [pyMin, pyLt_nan_left]

/-- CPython min keeps its first argument against... inf, correctly. -/
theorem pyMin_fin_inf (a : ℚ) : pyMin (.fin a) .inf = .fin a := by
  simp [pyMin, pyLt_inf_left]

/-- CPython min against -inf returns -inf. -/
theorem pyMin_fin_ninf (a : ℚ) : pyMin (.fin a) .ninf = .ninf := by
  simp [pyMin, pyLt_ninf_fin]

/-- CPython max of a finite value and -inf keeps the finite value. -/
theorem pyMax_fin_ninf (a : ℚ) : pyMax (.fin a) .ninf = .fin a := by
  simp [pyMax, pyLt_fin_ninf]

/-- Clamping any Python float with max(lo, min(hi, x)) lands on a finite
value inside [lo, hi]; the CPython argument order makes this hold even
for nan and the infinities. -/
theorem pyClamp_mem (lo hi : ℚ) (hlh : lo ≤ hi) (x : PyFloat) :
    ∃ q : ℚ, pyMax (.fin lo) (pyMin (.fin hi) x) = .fin q ∧ lo ≤ q ∧ q ≤ hi := by
  cases x with
  | fin v =>
      rw [pyMin_fin_fin, pyMax_fin_fin]
      exact ⟨max lo (min hi v), rfl, le_max_left _ _,
        max_le hlh (min_le_left hi v)⟩
  | nan =>
      rw [pyMin_fin_nan, pyMax_fin_fin]
      exact ⟨max lo hi, rfl, le_max_left _ _, max_le hlh (le_refl hi)⟩
  | inf =>
      rw [pyMin_fin_inf, pyMax_fin_fin]
      exact ⟨max lo hi, rfl, le_max_left _ _, max_le hlh (le_refl hi)⟩
  | ninf =>
      rw [pyMin_fin_ninf, pyMax_fin_ninf]
      exact ⟨lo, rfl, le_refl lo, hlh⟩

/-- Clamping a finite value is the rational clamp. -/
theorem pyClamp_fin_eq (lo hi v : ℚ) :
    pyMax (.fin lo) (pyMin (.fin hi) (.fin v)) = .fin (max lo (min hi v)) := by
  rw [pyMin_fin_fin, pyMax_fin_fin]

/-- C1.  The time-stretch policy of process_segment: a clip deviating
from the target by more than 100 ms is resampled with speed factor
current/target exactly when that factor lies in [0.5, 2.0]; a deviation
of at most 100 ms, or a factor outside the band, leaves the clip
unstretched.  The 4.4 s clip is stretched against a 4.0 s target
(factor 1.1) and left alone against a 9.0 s target (factor 22/45). -/
theorem stretch_policy (c t : ℚ) (ht : 0 < t) :
    (stretchDecision c t = some (c / t) ↔
      1/10 < |c - t| ∧ 1/2 ≤ c / t ∧ c / t ≤ 2) ∧
    (|c - t| ≤ 1/10 → stretchDecision c t = none) ∧
    (¬(1/2 ≤ c / t ∧ c / t ≤ 2) → stretchDecision c t = none) ∧
    stretchDecision (22/5) 4 = some (11/10) ∧
    stretchDecision (22/5) 9 = none := by
  refine ⟨?_, ?_, ?_, by with_unfolding_all decide, by with_unfolding_all decide⟩
  · constructor
    · intro h
      simp only [stretchDecision] at h
      by_cases h1 : 0 < c ∧ 1/10 < |c - t|
      · rw [if_pos h1] at h
        by_cases h2 : 1/2 ≤ c / t ∧ c / t ≤ 2
        · exact ⟨h1.2, h2⟩
        · rw [if_neg h2] at h
          exact absurd h (by simp)
      · rw [if_neg h1] at h
        exact absurd h (by simp)
    · rintro ⟨hd, hlo, hhi⟩
      have hc : 0 < c := by
        have h1 : 1/2 * t ≤ c := (le_div_iff₀ ht).mp hlo
        nlinarith
      simp only [stretchDecision]
      rw [if_pos ⟨hc, hd⟩, if_pos ⟨hlo, hhi⟩]
  · intro hle
    simp only [stretchDecision]
    rw [if_neg]
    intro hcon
    exact absurd hcon.2 (not_lt.mpr hle)
  · intro hnb
    simp only [stretchDecision]
    by_cases h1 : 0 < c ∧ 1/10 < |c - t|
    · rw [if_pos h1, if_neg hnb]
    · rw [if_neg h1]

/-- Witness for stretch_policy at the two spec scenario inputs. -/
theorem stretch_policy_check :
    stretchDecision (22/5) 4 = some (11/10) ∧ stretchDecision (22/5) 9 = none :=
  ⟨(stretch_policy (22/5) 4 (by norm_num)).2.2.2.1,
   (stretch_policy (22/5) 9 (by norm_num)).2.2.2.2⟩

/-- C2.  Evaluation at a confidently female 250 Hz profile: after
normalization the pipeline synthesis path (process_segment, the only
one process_movie invokes) sends the backend the default male az voice
with all-zero deltas, because it reads the keys voice / pitch_change /
rate_change / volume_change that the profile never contains; the
transforms the claim describes live in generate_speech, which would
send the female voice with deltas +9 Hz / +20 % / +30 % for the same
profile, but process_movie never calls it. -/
theorem pipeline_ignores_profile_deltas :
    normalize_speaker_params femaleProfileRaw = some femaleProfileNorm ∧
    process_segment_params "Salam" femaleProfileNorm =
      some ⟨"Salam", .str "az-AZ-BabekNeural", 0, 0, 0⟩ ∧
    generate_speech_params "Salam" femaleProfileNorm .az =
      some ⟨"Salam", .str "az-AZ-BanuNeural", 9, 20, 30⟩ ∧
    ((9 : ℤ) ≠ 0 ∧ (20 : ℤ) ≠ 0 ∧ (30 : ℤ) ≠ 0 ∧
      "az-AZ-BabekNeural" ≠ "az-AZ-BanuNeural") := by
  refine ⟨by with_unfolding_all decide, by with_unfolding_all decide,
    by with_unfolding_all decide, by with_unfolding_all decide⟩

/-- C3.  Empty text: generate_speech (which process_movie never calls)
returns a 1000 ms silent clip with no backend call, but process_segment
— the synthesizer the pipeline actually uses — has no blank-text guard
and invokes the backend with the empty text. -/
theorem empty_text_reaches_backend :
    generate_speech_outcome "" neutralSpeaker .az = some (.silentClip 1000) ∧
    generate_speech_outcome " " neutralSpeaker .az = some (.silentClip 1000) ∧
    process_segment_params "" neutralSpeaker =
      some ⟨"", .str "az-AZ-BabekNeural", 0, 0, 0⟩ ∧
    process_segment_params " " neutralSpeaker =
      some ⟨" ", .str "az-AZ-BabekNeural", 0, 0, 0⟩ := by
  refine ⟨by with_unfolding_all decide, by with_unfolding_all decide,
    by with_unfolding_all decide, by with_unfolding_all decide⟩

/-- C4 counterexample.  For a female profile the retry after a failed
first invocation uses the male az voice, not the gender-default (female)
voice the claim describes. -/
theorem retry_voice_not_gender_default :
    generate_speech_run "Salam" femaleProfileNorm .az false true =
      ([.full ⟨"Salam", .str "az-AZ-BanuNeural", 9, 20, 30⟩,
        .minimal "Salam" "az-AZ-BabekNeural"], true) ∧
    genderOf femaleProfileNorm = .female ∧
    "az-AZ-BabekNeural" ≠ voiceName (genderOf femaleProfileNorm) .az := by
  refine ⟨by with_unfolding_all decide, by with_unfolding_all decide,
    by with_unfolding_all decide⟩

/-- C4 amended.  When the first synthesis attempt fails, the engine
makes exactly one retry, as the minimal call with the male default
voice for the language and no overrides, and returns abnormally (the
exception is re-raised) exactly when the retry also fails. -/
theorem retry_policy (text : String) (d : SpeakerDict) (lang : Lang)
    (ok2 : Bool) (hblank : textIsBlank text = false) :
    ∃ pre, generate_speech_run text d lang false ok2 =
        (pre ++ [.minimal text (voiceName .male lang)], ok2) ∧
      (∀ c ∈ pre, ∃ p, c = .full p) ∧ pre.length ≤ 1 := by
  unfold generate_speech_run
  rw [hblank]
  simp only [Bool.false_eq_true, if_false]
  cases hp : generate_speech_params text d lang with
  | none =>
      exact ⟨[], rfl, by simp, by simp⟩
  | some p =>
      refine ⟨[.full p], rfl, ?_, by simp⟩
      intro c hc
      simp only [List.mem_singleton] at hc
      exact ⟨p, hc⟩

/-- Witness for retry_policy: a concrete doubly-failing request. -/
theorem retry_policy_check :
    ∃ pre, generate_speech_run "Salam" neutralSpeaker .az false false =
        (pre ++ [.minimal "Salam" (voiceName .male .az)], false) ∧
      (∀ c ∈ pre, ∃ p, c = .full p) ∧ pre.length ≤ 1 :=
  retry_policy "Salam" neutralSpeaker .az false (by with_unfolding_all decide)

/-- C5 counterexample.  Two audio segment records that are completely
identical occupy distinct list positions and their (identical, nonempty)
windows overlap in the sense of the claim, yet validate_audio_sync still
accepts the list: the Python loop skips pairs of equal dicts. -/
theorem validate_sync_duplicate_accepted :
    validate_audio_sync 10 [dupSeg, dupSeg] = true ∧
    validate_audio_sync 10 [dupSeg] = true ∧
    dupSeg.start_time < dupSeg.end_time ∧ dupSeg.end_time ≤ 10 := by
  refine ⟨by with_unfolding_all decide, by with_unfolding_all decide,
    by with_unfolding_all decide, by with_unfolding_all decide⟩

/-- C7 counterexample.  A male profile with pitch 10 Hz (below the valid
range) is clamped to the range bound 50 Hz, not reset to the male
default 120 Hz as the claim states. -/
theorem normalize_low_pitch_clamped :
    normalize_speaker_params lowPitchDict = some lowPitchNorm ∧
    dlookup "pitch" lowPitchNorm = some (.num (.fin 50)) ∧
    ((50 : ℚ) ≠ 120) := by
  refine ⟨by with_unfolding_all decide, by with_unfolding_all decide,
    by with_unfolding_all decide⟩

/-- C8 counterexample.  In the spec scenario the first segment's total
absolute difference is |0-10| + |5-13| = 18, not the 23 the claim
quotes; the selection itself still resolves to the second segment. -/
theorem matcher_scenario_total_is_18 :
    totalDiff demoCue demoSeg1 = 18 ∧ ((18 : ℚ) ≠ 23) ∧
    findClosestSegment demoCue [demoSeg1, demoSeg2] = some (demoSeg2, 7/10) := by
  refine ⟨by with_unfolding_all decide, by with_unfolding_all decide,
    by with_unfolding_all decide⟩

/-- Structure of a successful normalization: three clamped numeric
bindings consed (in assignment order) onto the untouched input dict. -/
theorem normalize_shape (d nd : SpeakerDict)
    (h : normalize_speaker_params d = some nd) :
    ∃ pv ev rv : PyFloat,
      nd = ("speech_rate", .num rv) :: ("energy", .num ev) ::
        ("pitch", .num pv) :: d ∧
      (∃ q : ℚ, pv = .fin q ∧ 50 ≤ q ∧ q ≤ 300) ∧
      (∃ q : ℚ, ev = .fin q ∧ 1/2 ≤ q ∧ q ≤ 2) ∧
      (∃ q : ℚ, rv = .fin q ∧ 4/5 ≤ q ∧ q ≤ 3/2) := by
  unfold normalize_speaker_params at h
  rw [Option.bind_eq_some'] at h
  obtain ⟨p0, hp0, h⟩ := h
  simp only [Option.bind_eq_some'] at h
  obtain ⟨e0, he0, r0, hr0, h⟩ := h
  simp only [Option.some.injEq] at h
  refine ⟨_, _, _, h.symm, ?_, ?_, ?_⟩
  · exact
      match pyClamp_mem 50 300 (by norm_num) _ with
      | ⟨q, hq, h1, h2⟩ => ⟨q, hq, h1, h2⟩
  · exact
      match pyClamp_mem (1/2) 2 (by norm_num) _ with
      | ⟨q, hq, h1, h2⟩ => ⟨q, hq, h1, h2⟩
  · exact
      match pyClamp_mem (4/5) (3/2) (by norm_num) _ with
      | ⟨q, hq, h1, h2⟩ => ⟨q, hq, h1, h2⟩

/-- C6.  Whenever normalization returns a profile, its pitch is a finite
value in [50, 300], its energy in [0.5, 2.0] and its speech rate in
[0.8, 1.5], for every input dict including missing, out-of-range and
non-finite numeric fields. -/
theorem normalize_invariant (d nd : SpeakerDict)
    (h : normalize_speaker_params d = some nd) : NormBounds nd := by
  obtain ⟨pv, ev, rv, hnd, ⟨qp, hqp, hp1, hp2⟩, ⟨qe, hqe, he1, he2⟩,
    ⟨qr, hqr, hr1, hr2⟩⟩ := normalize_shape d nd h
  subst hnd
  subst hqp
  subst hqe
  subst hqr
  refine ⟨⟨qp, ?_, hp1, hp2⟩, ⟨qe, ?_, he1, he2⟩, ⟨qr, ?_, hr1, hr2⟩⟩
  · simp [dlookup, List.lookup]
  · simp [dlookup, List.lookup]
  · simp [dlookup, List.lookup]

/-- Witness for normalize_invariant at a profile whose pitch is nan. -/
theorem normalize_invariant_check : NormBounds nanPitchNorm :=
  normalize_invariant nanPitchDict nanPitchNorm (by with_unfolding_all decide)

/-- C10.  Normalization builds a fresh dict: every key other than pitch,
energy and speech_rate keeps exactly the binding it had in the input
dict (and the input list itself is never modified, the three new
bindings being consed in front of it). -/
theorem normalize_keeps_other_keys (d nd : SpeakerDict) (k : String)
    (h : normalize_speaker_params d = some nd)
    (hk1 : k ≠ "pitch") (hk2 : k ≠ "energy") (hk3 : k ≠ "speech_rate") :
    dlookup k nd = dlookup k d := by
  obtain ⟨pv, ev, rv, hnd, -, -, -⟩ := normalize_shape d nd h
  subst hnd
  have b1 : (k == "pitch") = false := beq_eq_false_iff_ne.mpr hk1
  have b2 : (k == "energy") = false := beq_eq_false_iff_ne.mpr hk2
  have b3 : (k == "speech_rate") = false := beq_eq_false_iff_ne.mpr hk3
  simp [dlookup, List.lookup, b1, b2, b3]

/-- Witness for normalize_keeps_other_keys: the voice_features binding
survives normalization untouched. -/
theorem normalize_keeps_other_keys_check :
    dlookup "voice_features" voiceFeatNorm =
      dlookup "voice_features" voiceFeatDict :=
  normalize_keeps_other_keys voiceFeatDict voiceFeatNorm "voice_features"
    (by with_unfolding_all decide) (by decide) (by decide) (by decide)

/-- Unfolding dictionary lookup one binding at a time. -/
theorem dlookup_cons (k a : String) (v : PyVal) (t : SpeakerDict) :
    dlookup k ((a, v) :: t) = if k == a then some v else dlookup k t := by
  cases hka : k == a
  · simp [dlookup, List.lookup, hka]
  · simp [dlookup, List.lookup, hka]

/-- Lookup in the empty dictionary. -/
theorem dlookup_nil (k : String) : dlookup k ([] : SpeakerDict) = none := rfl

/-- C7 amended.  A field is reset to its profile default only when its
sanity test fires — pitch above 300 Hz (gender default 210/120), energy
below 0.01 or above 10 (default 1.0), speech rate above 100 (default
1.0); every other finite value, including one below the valid range, is
clamped to the nearest range bound instead of being defaulted. -/
theorem normalize_reset_vs_clamp (g : String) (p e r : ℚ) :
    normalizedField (speakerDictOf g (.fin p) (.fin e) (.fin r)) "pitch" =
      some (.num (.fin (if 300 < p then (if g = "female" then 210 else 120)
        else max 50 (min 300 p)))) ∧
    normalizedField (speakerDictOf g (.fin p) (.fin e) (.fin r)) "energy" =
      some (.num (.fin (if e < 1/100 ∨ 10 < e then 1
        else max (1/2) (min 2 e)))) ∧
    normalizedField (speakerDictOf g (.fin p) (.fin e) (.fin r)) "speech_rate" =
      some (.num (.fin (if 100 < r then 1 else max (4/5) (min (3/2) r)))) := by
  refine ⟨?_, ?_, ?_⟩ <;>
    simp [normalizedField, normalize_speaker_params, speakerDictOf, dget,
      dlookup_cons, dlookup_nil, toFloat, pyLt_fin_fin]
  · split_ifs <;> (rw [pyClamp_fin_eq]; try norm_num)
  · split_ifs <;> (rw [pyClamp_fin_eq]; try norm_num)
  · split_ifs <;> (rw [pyClamp_fin_eq]; try norm_num)

/-- C5 amended.  validate_audio_sync returns true exactly when every
segment ends within the track and no two segments with different record
values overlap; distinctness is Python dict value-inequality, so a
duplicated identical record is never tested against its copy. -/
theorem validate_audio_sync_iff (dur : ℚ) (segs : List SyncSegment) :
    validate_audio_sync dur segs = true ↔
      ((∀ s ∈ segs, s.end_time ≤ dur) ∧
       ∀ s ∈ segs, ∀ o ∈ segs, s ≠ o →
         ¬(s.start_time < o.end_time ∧ o.start_time < s.end_time)) := by
  unfold validate_audio_sync
  simp only [List.all_eq_true, Bool.and_eq_true, decide_eq_true_eq]
  constructor
  · intro h
    refine ⟨fun s hs => (h s hs).1, fun s hs o ho hne => ?_⟩
    have h2 := (h s hs).2 o ho
    rw [if_pos hne] at h2
    intro hov
    simp only [Bool.not_eq_true', Bool.and_eq_false_iff,
      decide_eq_false_iff_not] at h2
    rcases h2 with h2 | h2
    · exact h2 hov.1
    · exact h2 hov.2
  · rintro ⟨h1, h2⟩ s hs
    refine ⟨h1 s hs, fun o ho => ?_⟩
    by_cases hne : s ≠ o
    · rw [if_pos hne]
      have hno := h2 s hs o ho hne
      simp only [Bool.not_eq_true', Bool.and_eq_false_iff,
        decide_eq_false_iff_not]
      by_cases hx : s.start_time < o.end_time
      · right
        intro hy
        exact hno ⟨hx, hy⟩
      · left
        exact hx
    · rw [if_neg hne]

/-- C9.  Parsing the formatted timecode recovers the input to
millisecond precision: the reconstruction equals floor(1000 x)/1000,
hence differs from x by strictly less than 1 ms. -/
theorem timecode_roundtrip (x : ℚ) (_hx : 0 ≤ x) :
    |time_to_seconds (format_timecode x) - x| < 1/1000 := by
  have hm : ⌊pyMod x 3600 / 60⌋ = ⌊x / 60⌋ - 60 * ⌊x / 3600⌋ := by
    have e1 : pyMod x 3600 / 60 = x / 60 - ((60 * ⌊x / 3600⌋ : ℤ) : ℚ) := by
      unfold pyMod
      push_cast
      ring
    rw [e1, Int.floor_sub_int]
  have hs : ⌊pyMod x 60⌋ = ⌊x⌋ - 60 * ⌊x / 60⌋ := by
    have e2 : pyMod x 60 = x - ((60 * ⌊x / 60⌋ : ℤ) : ℚ) := by
      unfold pyMod
      push_cast
      ring
    rw [e2, Int.floor_sub_int]
  have hs' : ⌊x - 60 * ((⌊x / 60⌋ : ℤ) : ℚ)⌋ = ⌊x⌋ - 60 * ⌊x / 60⌋ := by
    have := hs
    unfold pyMod at this
    exact this
  have hms : ⌊pyMod (pyMod x 60) 1 * 1000⌋ = ⌊1000 * x⌋ - 1000 * ⌊x⌋ := by
    have e3 : pyMod (pyMod x 60) 1 * 1000 =
        1000 * x - ((1000 * ⌊x⌋ : ℤ) : ℚ) := by
      unfold pyMod
      rw [div_one, hs']
      push_cast
      ring
    rw [e3, Int.floor_sub_int]
  have key : time_to_seconds (format_timecode x) = ((⌊1000 * x⌋ : ℤ) : ℚ) / 1000 := by
    simp only [time_to_seconds, format_timecode]
    rw [hm, hs, hms]
    push_cast
    ring
  have fl : ((⌊1000 * x⌋ : ℤ) : ℚ) ≤ 1000 * x := Int.floor_le _
  have fu : 1000 * x < ((⌊1000 * x⌋ : ℤ) : ℚ) + 1 := Int.lt_floor_add_one _
  rw [key, abs_lt]
  constructor <;> linarith

/-- Witness for timecode_roundtrip at one hour, one minute, 1.5 s. -/
theorem timecode_roundtrip_check :
    |time_to_seconds (format_timecode (7323/2)) - 7323/2| < 1/1000 :=
  timecode_roundtrip (7323/2) (by norm_num)

/-- Bridging the source loop to the recursive first-minimum function:
folding from an accumulator that already holds a candidate best. -/
theorem foldl_stepClosest (cue : SubCue) (l : List MetaSegment) :
    ∀ t : MetaSegment,
      l.foldl (stepClosest cue) (some (t, totalDiff cue t)) =
        match firstMinDiff cue (l.filter fun s => s.hasId) with
        | none => some (t, totalDiff cue t)
        | some (u, m) =>
            if m < totalDiff cue t then some (u, m)
            else some (t, totalDiff cue t) := by
  induction l with
  | nil =>
      intro t
      rfl
  | cons s rest ih =>
      intro t
      by_cases hid : s.hasId
      · rw [List.foldl_cons]
        have hstep : stepClosest cue (some (t, totalDiff cue t)) s =
            if totalDiff cue s < totalDiff cue t
            then some (s, totalDiff cue s) else some (t, totalDiff cue t) := by
          simp [stepClosest, hid]
        rw [hstep, List.filter_cons_of_pos hid, firstMinDiff]
        cases hfm : firstMinDiff cue (rest.filter fun s => s.hasId) with
        | none =>
            by_cases hds : totalDiff cue s < totalDiff cue t
            · rw [if_pos hds, ih s, hfm]
              simp [hds]
            · rw [if_neg hds, ih t, hfm]
              simp [hds]
        | some um =>
            obtain ⟨u, m⟩ := um
            by_cases hds : totalDiff cue s < totalDiff cue t
            · rw [if_pos hds, ih s, hfm]
              by_cases hle : totalDiff cue s ≤ m
              · simp [hds, hle, not_lt.mpr hle]
              · simp [hds, hle, not_le.mp hle, lt_trans (not_le.mp hle) hds]
            · rw [if_neg hds, ih t, hfm]
              by_cases hle : totalDiff cue s ≤ m
              · have hmt : ¬ m < totalDiff cue t := by
                  intro hc
                  exact hds (lt_of_le_of_lt hle hc)
                simp [hds, hle, hmt, not_lt.mpr hle]
              · simp [hle]
      · rw [List.foldl_cons]
        have hstep : stepClosest cue (some (t, totalDiff cue t)) s =
            some (t, totalDiff cue t) := by
          simp [stepClosest, hid]
        rw [hstep, List.filter_cons_of_neg hid, ih t]

/-- The closest-segment loop computes exactly the first minimum of the
total difference over the segments that carry a segment_id. -/
theorem findClosestSegment_eq (cue : SubCue) (segs : List MetaSegment) :
    findClosestSegment cue segs =
      firstMinDiff cue (segs.filter fun s => s.hasId) := by
  induction segs with
  | nil => rfl
  | cons s rest ih =>
      by_cases hid : s.hasId
      · unfold findClosestSegment
        rw [List.foldl_cons]
        have hstep : stepClosest cue none s = some (s, totalDiff cue s) := by
          simp [stepClosest, hid]
        rw [hstep, foldl_stepClosest, List.filter_cons_of_pos hid,
          firstMinDiff]
        cases hfm : firstMinDiff cue (rest.filter fun s => s.hasId) with
        | none => simp
        | some um =>
            obtain ⟨u, m⟩ := um
            by_cases hle : totalDiff cue s ≤ m
            · simp [hle, not_lt.mpr hle]
            · simp [hle, not_le.mp hle]
      · unfold findClosestSegment
        rw [List.foldl_cons]
        have hstep : stepClosest cue none s = none := by
          simp [stepClosest, hid]
        rw [hstep, List.filter_cons_of_neg hid]
        exact ih

/-- A first minimum belongs to the list and carries its own difference. -/
theorem firstMinDiff_mem (cue : SubCue) (l : List MetaSegment)
    (s : MetaSegment) (d : ℚ) (h : firstMinDiff cue l = some (s, d)) :
    s ∈ l ∧ d = totalDiff cue s := by
  induction l generalizing s d with
  | nil => simp [firstMinDiff] at h
  | cons a rest ih =>
      rw [firstMinDiff] at h
      cases hfm : firstMinDiff cue rest with
      | none =>
          rw [hfm] at h
          replace h : some (a, totalDiff cue a) = some (s, d) := h
          simp only [Option.some.injEq, Prod.mk.injEq] at h
          obtain ⟨rfl, rfl⟩ := h
          exact ⟨List.mem_cons_self a rest, rfl⟩
      | some tm =>
          obtain ⟨t, m⟩ := tm
          rw [hfm] at h
          replace h : (if totalDiff cue a ≤ m then some (a, totalDiff cue a)
              else some (t, m)) = some (s, d) := h
          by_cases hle : totalDiff cue a ≤ m
          · rw [if_pos hle] at h
            simp only [Option.some.injEq, Prod.mk.injEq] at h
            obtain ⟨rfl, rfl⟩ := h
            exact ⟨List.mem_cons_self a rest, rfl⟩
          · rw [if_neg hle] at h
            simp only [Option.some.injEq, Prod.mk.injEq] at h
            obtain ⟨rfl, rfl⟩ := h
            obtain ⟨hmem, hval⟩ := ih t m hfm
            exact ⟨List.mem_cons_of_mem a hmem, hval⟩

/-- The empty list is the only one without a first minimum. -/
theorem firstMinDiff_eq_none (cue : SubCue) (l : List MetaSegment) :
    firstMinDiff cue l = none ↔ l = [] := by
  cases l with
  | nil => simp [firstMinDiff]
  | cons a rest =>
      simp only [firstMinDiff]
      cases hfm : firstMinDiff cue rest with
      | none => simp
      | some tm =>
          obtain ⟨t, m⟩ := tm
          by_cases hle : totalDiff cue a ≤ m
          · simp [hle]
          · simp [hle]

/-- A first minimum minimizes the total difference over the list. -/
theorem firstMinDiff_min (cue : SubCue) (l : List MetaSegment)
    (s : MetaSegment) (d : ℚ) (h : firstMinDiff cue l = some (s, d)) :
    ∀ u ∈ l, d ≤ totalDiff cue u := by
  induction l generalizing s d with
  | nil => simp [firstMinDiff] at h
  | cons a rest ih =>
      rw [firstMinDiff] at h
      cases hfm : firstMinDiff cue rest with
      | none =>
          rw [hfm] at h
          replace h : some (a, totalDiff cue a) = some (s, d) := h
          simp only [Option.some.injEq, Prod.mk.injEq] at h
          obtain ⟨rfl, rfl⟩ := h
          have hrest : rest = [] := (firstMinDiff_eq_none cue rest).mp hfm
          subst hrest
          intro u hu
          simp only [List.mem_singleton] at hu
          subst hu
          exact le_refl _
      | some tm =>
          obtain ⟨t, m⟩ := tm
          rw [hfm] at h
          replace h : (if totalDiff cue a ≤ m then some (a, totalDiff cue a)
              else some (t, m)) = some (s, d) := h
          by_cases hle : totalDiff cue a ≤ m
          · rw [if_pos hle] at h
            simp only [Option.some.injEq, Prod.mk.injEq] at h
            obtain ⟨rfl, rfl⟩ := h
            intro u hu
            rcases List.mem_cons.mp hu with hu | hu
            · subst hu
              exact le_refl _
            · exact le_trans hle (ih t m hfm u hu)
          · rw [if_neg hle] at h
            simp only [Option.some.injEq, Prod.mk.injEq] at h
            obtain ⟨rfl, rfl⟩ := h
            intro u hu
            rcases List.mem_cons.mp hu with hu | hu
            · subst hu
              exact le_of_lt (not_le.mp hle)
            · exact ih t m hfm u hu

/-- The first minimum is the earliest minimizer: everything before it in
the list has a strictly larger total difference. -/
theorem firstMinDiff_first (cue : SubCue) (l : List MetaSegment)
    (s : MetaSegment) (d : ℚ) (h : firstMinDiff cue l = some (s, d)) :
    ∃ l1 l2, l = l1 ++ s :: l2 ∧ ∀ u ∈ l1, d < totalDiff cue u := by
  induction l generalizing s d with
  | nil => simp [firstMinDiff] at h
  | cons a rest ih =>
      rw [firstMinDiff] at h
      cases hfm : firstMinDiff cue rest with
      | none =>
          rw [hfm] at h
          replace h : some (a, totalDiff cue a) = some (s, d) := h
          simp only [Option.some.injEq, Prod.mk.injEq] at h
          obtain ⟨rfl, rfl⟩ := h
          exact ⟨[], rest, rfl, by simp⟩
      | some tm =>
          obtain ⟨t, m⟩ := tm
          rw [hfm] at h
          replace h : (if totalDiff cue a ≤ m then some (a, totalDiff cue a)
              else some (t, m)) = some (s, d) := h
          by_cases hle : totalDiff cue a ≤ m
          · rw [if_pos hle] at h
            simp only [Option.some.injEq, Prod.mk.injEq] at h
            obtain ⟨rfl, rfl⟩ := h
            exact ⟨[], rest, rfl, by simp⟩
          · rw [if_neg hle] at h
            simp only [Option.some.injEq, Prod.mk.injEq] at h
            obtain ⟨rfl, rfl⟩ := h
            obtain ⟨l1, l2, hsplit, hgt⟩ := ih t m hfm
            refine ⟨a :: l1, l2, by rw [hsplit, List.cons_append], ?_⟩
            intro u hu
            rcases List.mem_cons.mp hu with hu | hu
            · subst hu
              exact not_le.mp hle
            · exact hgt u hu

/-- C8 amended.  The matcher selects, among segments carrying a
segment_id, the one minimizing the total absolute difference of window
endpoints, ties resolved to the earliest (first minimum wins): every
segment listed before the winner has strictly larger total difference.
In the spec scenario the second segment wins with difference 0.7
against 18 (not 23) for the first; an empty segment list yields the
synthetic neutral fallback profile. -/
theorem matcher_selects_first_closest :
    (∀ cue segs seg d, findClosestSegment cue segs = some (seg, d) →
       d = totalDiff cue seg ∧ seg ∈ segs ∧ seg.hasId = true ∧
       (∀ u ∈ segs, u.hasId = true → d ≤ totalDiff cue u) ∧
       ∃ l1 l2, (segs.filter fun s => s.hasId) = l1 ++ seg :: l2 ∧
         ∀ u ∈ l1, d < totalDiff cue u) ∧
    findClosestSegment demoCue [demoSeg1, demoSeg2] = some (demoSeg2, 7/10) ∧
    totalDiff demoCue demoSeg1 = 18 ∧
    (∀ threshold cue, find_matching_segment threshold cue [] = fallbackMatch) ∧
    dlookup "gender" neutralSpeaker = some (.str "male") ∧
    dlookup "gender_confidence" neutralSpeaker = some (.num (.fin 1)) ∧
    dlookup "pitch" neutralSpeaker = some (.num (.fin 120)) ∧
    dlookup "energy" neutralSpeaker = some (.num (.fin 1)) ∧
    dlookup "speech_rate" neutralSpeaker = some (.num (.fin 1)) := by
  refine ⟨?_, by with_unfolding_all decide, by with_unfolding_all decide, ?_,
    by with_unfolding_all decide, by with_unfolding_all decide,
    by with_unfolding_all decide, by with_unfolding_all decide,
    by with_unfolding_all decide⟩
  · intro cue segs seg d h
    rw [findClosestSegment_eq] at h
    obtain ⟨hmem, hval⟩ := firstMinDiff_mem cue _ seg d h
    rw [List.mem_filter] at hmem
    have hmin := firstMinDiff_min cue _ seg d h
    obtain ⟨l1, l2, hsplit, hgt⟩ := firstMinDiff_first cue _ seg d h
    refine ⟨hval, hmem.1, hmem.2, ?_, l1, l2, hsplit, hgt⟩
    intro u hu huid
    exact hmin u (List.mem_filter.mpr ⟨hu, huid⟩)
  · intro threshold cue
    rfl
